import Mathlib

/-!
# Formal model of `trader.py`

A shallow embedding of the two components of the repository's decision
engine, together with theorems settling the specified properties:

* the `DB4WaveletTransform` class: `dwt`, `idwt` and the round trip
  `predict_next_price`;
* the `Trader` class: `values_extract`, the per-tick fair-value
  computation and the two-pass quoting engine of `Trader.run`.

Python floats are modelled as exact rationals (`ℚ`); the hard-coded
filter constants are embedded as the exact rational values of the
decimal literals appearing in the source.  Machine behaviour that the
claims do not touch (float rounding) is not modelled.  The unguarded
`ZeroDivisionError` raised by `Trader.run` when a book side has zero
total volume is modelled by returning `Except.error`.
-/

namespace TraderPy

/-- `DB4WaveletTransform.decompositionLowFilter` (exact values of the
decimal literals in the source). -/
def decompositionLowFilter : List ℚ :=
  [ -10597401784997278 / 10 ^ 18,
    32883011666982945 / 10 ^ 18,
    30841381835986965 / 10 ^ 18,
    -18703481171888114 / 10 ^ 17,
    -2798376941698385 / 10 ^ 17,
    6308807679295904 / 10 ^ 16,
    7148465705525415 / 10 ^ 16,
    23037781330885523 / 10 ^ 17 ]

/-- `DB4WaveletTransform.decompositionHighFilter`. -/
def decompositionHighFilter : List ℚ :=
  [ -23037781330885523 / 10 ^ 17,
    7148465705525415 / 10 ^ 16,
    -6308807679295904 / 10 ^ 16,
    -2798376941698385 / 10 ^ 17,
    18703481171888114 / 10 ^ 17,
    30841381835986965 / 10 ^ 18,
    -32883011666982945 / 10 ^ 18,
    -10597401784997278 / 10 ^ 18 ]

/-- `DB4WaveletTransform.reconstructionLowFilter`. -/
def reconstructionLowFilter : List ℚ :=
  [ 23037781330885523 / 10 ^ 17,
    7148465705525415 / 10 ^ 16,
    6308807679295904 / 10 ^ 16,
    -2798376941698385 / 10 ^ 17,
    -18703481171888114 / 10 ^ 17,
    30841381835986965 / 10 ^ 18,
    32883011666982945 / 10 ^ 18,
    -10597401784997278 / 10 ^ 18 ]

/-- `DB4WaveletTransform.reconstructionHighFilter`. -/
def reconstructionHighFilter : List ℚ :=
  [ -10597401784997278 / 10 ^ 18,
    -32883011666982945 / 10 ^ 18,
    30841381835986965 / 10 ^ 18,
    18703481171888114 / 10 ^ 17,
    -2798376941698385 / 10 ^ 17,
    -6308807679295904 / 10 ^ 16,
    7148465705525415 / 10 ^ 16,
    -23037781330885523 / 10 ^ 17 ]

/-- `DB4WaveletTransform.dwt`.  The source initialises `arrHilbert` to
`level` zeros and, for `i < level >>> 1` and each of the 8 filter taps
`j`, accumulates `arrTime[k] * filter[j]` with `k = 2*i + j` reduced
modulo `level` by the `while` loop.  Entry `i` of the result holds the
approximation coefficient, entry `i + level/2` the detail coefficient;
for odd `level` the last entry is never written and stays `0`.  The
callers guarantee `arrTime.length = level`, so the out-of-range reads
that would raise `IndexError` in Python never occur; `getD _ 0` is used
for indexing. -/
def dwt (arrTime : List ℚ) (level : ℕ) : List ℚ :=
  (List.range level).map fun m =>
    if m < level / 2 then
      ((List.range 8).map fun j =>
        arrTime.getD ((2 * m + j) % level) 0 * decompositionLowFilter.getD j 0).sum
    else if m - level / 2 < level / 2 then
      ((List.range 8).map fun j =>
        arrTime.getD ((2 * (m - level / 2) + j) % level) 0 *
          decompositionHighFilter.getD j 0).sum
    else 0

/-- `DB4WaveletTransform.idwt`.  The source initialises `arrTime` to
`level` zeros and, for `i < level >>> 1` and each tap `j`, accumulates
`arrHilbert[i]*reconstructionLowFilter[j] +
arrHilbert[i+a]*reconstructionHighFilter[j]` into `arrTime[k]`,
`k = (2*i + j) % level`; entry `k` of the result is the sum of all
contributions landing on index `k`. -/
def idwt (arrHilbert : List ℚ) (level : ℕ) : List ℚ :=
  (List.range level).map fun k =>
    ((List.range (level / 2)).map fun i =>
      ((List.range 8).map fun j =>
        if (2 * i + j) % level = k then
          arrHilbert.getD i 0 * reconstructionLowFilter.getD j 0 +
            arrHilbert.getD (i + level / 2) 0 * reconstructionHighFilter.getD j 0
        else 0).sum).sum

/-- `Trader.predict_next_price`: the composition
`idwt (dwt prices level) level` (the `np.array` wrapper is a no-op on
the values). -/
def predict_next_price (prices : List ℚ) (level : ℕ) : List ℚ :=
  idwt (dwt prices level) level

/-! ## The `Trader` data model -/

/-- `datamodel.Order`: `Order(product, price, quantity)`; positive
quantity is a buy request, negative a sell request. -/
structure Order where
  symbol : String
  price : ℤ
  quantity : ℤ
deriving DecidableEq

/-- One product's book: `buy_orders` and `sell_orders` are the
`price → volume` dictionaries, represented as association lists in
insertion order (dictionary keys are unique prices). -/
structure OrderDepth where
  buy_orders : List (ℤ × ℤ)
  sell_orders : List (ℤ × ℤ)

/-- The per-tick snapshot handed to `Trader.run`: order books and
positions keyed by product, plus the opaque carry string. -/
structure TradingState where
  order_depths : List (String × OrderDepth)
  position : List (String × ℤ)
  traderData : String

/-- `sorted(d.items())`: ascending by price (keys are unique, so the
tuple order coincides with the price order). -/
def sortAsc (l : List (ℤ × ℤ)) : List (ℤ × ℤ) :=
  List.insertionSort (fun a b => a.1 ≤ b.1) l

/-- `sorted(d.items(), reverse=True)`: descending by price. -/
def sortDesc (l : List (ℤ × ℤ)) : List (ℤ × ℤ) :=
  List.insertionSort (fun a b => b.1 ≤ a.1) l

/-- `Trader.values_extract`: scans the ladder keeping
`(tot_vol, best_val, mxvol)`, starting from `(0, -1, -1)`; the per-step
volume is sign-flipped when `buy = 0`; the running total is added to
`tot_vol`, and whenever `tot_vol > mxvol` the code records
`mxvol := vol` (the step volume, not the total) and `best_val := ask`.
Returns `best_val`. -/
def values_extract_step (buy : ℤ) (s : ℤ × ℤ × ℤ) (pv : ℤ × ℤ) : ℤ × ℤ × ℤ :=
  let vol := if buy = 0 then -pv.2 else pv.2
  let tot := s.1 + vol
  if s.2.2 < tot then (tot, pv.1, vol) else (tot, s.2.1, s.2.2)

def values_extract (order_dict : List (ℤ × ℤ)) (buy : ℤ) : ℤ :=
  (order_dict.foldl (values_extract_step buy) (0, -1, -1)).2.1

/-- Running total `tot_ask_vol[product]`: sum of `-ask_vol` over the
ask ladder. -/
def totAskVol (sellL : List (ℤ × ℤ)) : ℤ :=
  (sellL.map fun pv => -pv.2).sum

/-- Running total `tot_ask_price_vol[product]`: sum of
`ask_price * -ask_vol`. -/
def totAskPriceVol (sellL : List (ℤ × ℤ)) : ℤ :=
  (sellL.map fun pv => pv.1 * -pv.2).sum

/-- Running total `tot_bid_vol[product]`. -/
def totBidVol (buyL : List (ℤ × ℤ)) : ℤ :=
  (buyL.map fun pv => pv.2).sum

/-- Running total `tot_bid_price_vol[product]`. -/
def totBidPriceVol (buyL : List (ℤ × ℤ)) : ℤ :=
  (buyL.map fun pv => pv.1 * pv.2).sum

/-- The one failure `Trader.run` can hit on well-typed input: the
unguarded `ZeroDivisionError` of lines 215–216, raised exactly when a
side's total volume is zero (in particular when a ladder is empty).
The spec's error taxonomy calls this condition `EmptyBookSide`. -/
inductive RunError where
  | emptyBookSide
deriving DecidableEq

/-- Lines 204–218 for one product: sort both ladders, accumulate the
four totals, and form
`next_mid = (next_ask + next_bid) / 2` with
`next_bid = tot_bid_price_vol / tot_bid_vol` (line 215, evaluated
first) and `next_ask = tot_ask_price_vol / tot_ask_vol` (line 216).
A zero denominator raises (bid side first, as in the source).  The
unused `cur_mid_prices` assignment (line 219) cannot fail once both
divisions succeeded and is dropped. -/
def nextMidPrice (od : OrderDepth) : Except RunError ℚ :=
  let sellL := sortAsc od.sell_orders
  let buyL := sortDesc od.buy_orders
  if totBidVol buyL = 0 then .error .emptyBookSide
  else if totAskVol sellL = 0 then .error .emptyBookSide
  else .ok (((totAskPriceVol sellL : ℚ) / (totAskVol sellL : ℚ) +
      (totBidPriceVol buyL : ℚ) / (totBidVol buyL : ℚ)) / 2)

/-- Python's `int()` applied to a (finite) real value: truncation
toward zero. -/
def pyInt (q : ℚ) : ℤ :=
  if 0 ≤ q then ⌊q⌋ else ⌈q⌉

/-- Lines 223–226: `acc_price` is the constant `10000` for
`"AMETHYSTS"` and `int(next_mid_prices[product])` otherwise. -/
def accPrice (product : String) (mid : ℚ) : ℤ :=
  if product = "AMETHYSTS" then 10000 else pyInt mid

/-- Lines 228–232: the position lookup, `0` when the product is absent
from `state.position`. -/
def lookupPos (position : List (String × ℤ)) (product : String) : ℤ :=
  ((position.find? fun x => x.1 == product).map fun x => x.2).getD 0

/-- Lines 234–238, one ask level of the aggressive BUY walk.  The
state is `(cur_pos, orders)`. -/
def buyStep (product : String) (acc static : ℤ)
    (s : ℤ × List Order) (pv : ℤ × ℤ) : ℤ × List Order :=
  if pv.1 < acc ∨ (static < 0 ∧ pv.1 = acc ∧ s.1 < 20) then
    (s.1 + min (-pv.2) (20 - s.1),
      s.2 ++ [⟨product, pv.1, min (-pv.2) (20 - s.1)⟩])
  else s

/-- Lines 266–270, one bid level of the aggressive SELL walk. -/
def sellStep (product : String) (acc static : ℤ)
    (s : ℤ × List Order) (pv : ℤ × ℤ) : ℤ × List Order :=
  if pv.1 > acc ∨ (static > 0 ∧ pv.1 = acc ∧ s.1 > -20) then
    (s.1 + max (-pv.2) (-20 - s.1),
      s.2 ++ [⟨product, pv.1, max (-pv.2) (-20 - s.1)⟩])
  else s

/-- Lines 249–262: the three conditional passive buy layers, in source
order. -/
def buyLayers (product : String) (acc static undercut_buy our_bid : ℤ)
    (s : ℤ × List Order) : ℤ × List Order :=
  let s1 :=
    if s.1 < 20 ∧ static < 0 then
      (s.1 + min 40 (20 - s.1),
        s.2 ++ [⟨product, min (undercut_buy + 1) (acc - 1), min 40 (20 - s.1)⟩])
    else s
  let s2 :=
    if s1.1 < 20 ∧ static > 15 then
      (s1.1 + min 40 (20 - s1.1),
        s1.2 ++ [⟨product, min (undercut_buy - 1) (acc - 1), min 40 (20 - s1.1)⟩])
    else s1
  if s2.1 < 20 then
    (s2.1 + min 40 (20 - s2.1), s2.2 ++ [⟨product, our_bid, min 40 (20 - s2.1)⟩])
  else s2

/-- Lines 272–285: the three conditional passive sell layers. -/
def sellLayers (product : String) (acc static undercut_sell our_ask : ℤ)
    (s : ℤ × List Order) : ℤ × List Order :=
  let s1 :=
    if s.1 > -20 ∧ static > 0 then
      (s.1 + max (-40) (-20 - s.1),
        s.2 ++ [⟨product, max (undercut_sell - 1) (acc + 1), max (-40) (-20 - s.1)⟩])
    else s
  let s2 :=
    if s1.1 > -20 ∧ static < -15 then
      (s1.1 + max (-40) (-20 - s1.1),
        s1.2 ++ [⟨product, max (undercut_sell + 1) (acc + 1), max (-40) (-20 - s1.1)⟩])
    else s1
  if s2.1 > -20 then
    (s2.1 + max (-40) (-20 - s2.1), s2.2 ++ [⟨product, our_ask, max (-40) (-20 - s2.1)⟩])
  else s2

/-- Lines 222–287, the whole per-product body of the second loop:
aggressive BUY walk over the ascending ask ladder seeded with the
host-reported position, passive buy layers, reset of `cur_pos` to
`CUR_POS_STATIC` (line 264), aggressive SELL walk over the descending
bid ladder, passive sell layers; returns the emitted order list. -/
def runProduct (static : ℤ) (product : String) (od : OrderDepth) (mid : ℚ) :
    List Order :=
  let sellL := sortAsc od.sell_orders
  let buyL := sortDesc od.buy_orders
  let acc := accPrice product mid
  let s0 := sellL.foldl (buyStep product acc static) (static, [])
  let best_sell := values_extract sellL 0
  let best_buy := values_extract buyL 1
  let undercut_buy := best_buy + 1
  let undercut_sell := best_sell - 1
  let our_bid := min undercut_buy (acc - 1)
  let our_ask := min undercut_sell (acc + 1)
  let s1 := buyLayers product acc static undercut_buy our_bid s0
  let s2 := buyL.foldl (sellStep product acc static) (static, s1.2)
  let s3 := sellLayers product acc static undercut_sell our_ask s2
  s3.2

/-- The first `for product in state.order_depths` loop: computes
`next_mid_prices` for every product, failing at the first product whose
book has a zero-volume side (the `ZeroDivisionError` aborts `run`). -/
def computeMids :
    List (String × OrderDepth) → Except RunError (List (String × OrderDepth × ℚ))
  | [] => .ok []
  | (p, od) :: rest =>
    match nextMidPrice od with
    | .error e => .error e
    | .ok mid =>
      match computeMids rest with
      | .error e => .error e
      | .ok tail => .ok ((p, od, mid) :: tail)

/-- `Trader.run`: the per-tick entry point.  Returns the per-product
order lists, `conversions = 1` and the carry string
`state.traderData`, or the error raised while computing the weighted
mid prices. -/
def run (state : TradingState) :
    Except RunError (List (String × List Order) × ℤ × String) :=
  match computeMids state.order_depths with
  | .error e => .error e
  | .ok mids =>
    .ok (mids.map fun x =>
        (x.1, runProduct (lookupPos state.position x.1) x.1 x.2.1 x.2.2),
      1, state.traderData)

/-- The order list `run` produces for one product (empty when `run`
fails or the product is absent). -/
def ordersFor (state : TradingState) (product : String) : List Order :=
  match run state with
  | .ok (result, _, _) =>
    (((result.find? fun x => x.1 == product).map fun x => x.2).getD [])
  | .error _ => []

/-! ## Definitions used by the verification

Concrete inputs, the spec-side definitions compared against the code,
and the stage invariants of the quoting engine. -/

/-- The length-8 impulse signal used to evaluate the wavelet round
trip. -/
def sig8 : List ℚ := [1, 0, 0, 0, 0, 0, 0, 0]

/-- A one-product state: asks `{9: -5, 10: -3}`, bids `{11: 4}`,
no position, carry string `"d"`. -/
def state6 : TradingState := ⟨[("X", ⟨[(11, 4)], [(9, -5), (10, -3)]⟩)], [], "d"⟩

/-- A one-product state whose BUY walk reaches the `+20` ceiling on the
first ask level and then scans another ask priced below fair value. -/
def state10 : TradingState := ⟨[("X", ⟨[(100, 1)], [(5, -30), (6, -2)]⟩)], [], "s"⟩

/-- A book with a negative ask price: asks `{-3: -1}`, bids `{0: 1}`.
Its weighted mid is `-3/2`. -/
def odNeg : OrderDepth := ⟨[(0, 1)], [(-3, -1)]⟩

/-- `values_extract` as the spec describes it: track the level whose
per-step volume (sign-flipped for asks) is the largest seen so far;
the first level achieving a new maximum step-volume wins. -/
def values_extract_spec (order_dict : List (ℤ × ℤ)) (buy : ℤ) : ℤ :=
  (order_dict.foldl
    (fun s pv =>
      let vol := if buy = 0 then -pv.2 else pv.2
      if s.2 < vol then (pv.1, vol) else s)
    (-1, -1)).1

/-- The claim's weighted ask price, stated in its own words:
`sum(ask_price_i * |ask_vol_i|) / sum(|ask_vol_i|)` over the raw ask
ladder. -/
def weightedAskSpec (od : OrderDepth) : ℚ :=
  ((od.sell_orders.map fun pv => (pv.1 : ℚ) * |(pv.2 : ℚ)|).sum) /
    ((od.sell_orders.map fun pv => |(pv.2 : ℚ)|).sum)

/-- The claim's weighted bid price: the analogous sum over the bid
ladder with its positive volumes. -/
def weightedBidSpec (od : OrderDepth) : ℚ :=
  ((od.buy_orders.map fun pv => (pv.1 : ℚ) * (pv.2 : ℚ)).sum) /
    ((od.buy_orders.map fun pv => (pv.2 : ℚ)).sum)

/-- Invariant of a buy-side stage: starting from running position `cur`
and previously emitted orders `os`, the stage only appends orders with
nonnegative quantity, the running position tracks `cur` plus the
appended quantities, and it never exceeds the `+20` ceiling at any
intermediate point. -/
def BuyStage (cur : ℤ) (os : List Order) (s : ℤ × List Order) : Prop :=
  ∃ tail : List Order,
    s = (cur + (tail.map Order.quantity).sum, os ++ tail) ∧
    (∀ o ∈ tail, 0 ≤ o.quantity) ∧
    (∀ n : ℕ, cur + ((tail.take n).map Order.quantity).sum ≤ 20)

/-- Invariant of a sell-side stage: only nonpositive quantities, never
below the `-20` floor. -/
def SellStage (cur : ℤ) (os : List Order) (s : ℤ × List Order) : Prop :=
  ∃ tail : List Order,
    s = (cur + (tail.map Order.quantity).sum, os ++ tail) ∧
    (∀ o ∈ tail, o.quantity ≤ 0) ∧
    (∀ n : ℕ, -20 ≤ cur + ((tail.take n).map Order.quantity).sum)

/-! ## Helper lemmas -/

theorem int_sum_nonpos (l : List ℤ) (h : ∀ x ∈ l, x ≤ 0) : l.sum ≤ 0 := by
  induction l with
  | nil => simp
  | cons x t ih =>
    rw [List.sum_cons]
    have := h x (by simp)
    have := ih fun y hy => h y (by simp [hy])
    omega

theorem sum_take_append (t1 t2 : List ℤ) (n : ℕ) :
    ((t1 ++ t2).take n).sum = (t1.take n).sum + (t2.take (n - t1.length)).sum := by
  rw [List.take_append_eq_append_take, List.sum_append]

theorem values_extract_loop (b : ℤ) (l : List (ℤ × ℤ)) :
    ∀ (tot best mx : ℤ), 0 ≤ tot → mx ≤ tot →
    (∀ pv ∈ l, 1 ≤ (if b = 0 then -pv.2 else pv.2)) →
    (l.foldl (values_extract_step b) (tot, best, mx)).2.1 =
      ((l.getLast?.map fun pv => pv.1).getD best) := by
  induction l with
  | nil => intro tot best mx _ _ _; rfl
  | cons pv t ih =>
    intro tot best mx htot hmx hvols
    have hv : 1 ≤ (if b = 0 then -pv.2 else pv.2) := hvols pv (by simp)
    have hstep : values_extract_step b (tot, best, mx) pv =
        (tot + (if b = 0 then -pv.2 else pv.2), pv.1,
          (if b = 0 then -pv.2 else pv.2)) := by
      unfold values_extract_step
      simp only []
      rw [if_pos (by omega)]
    rw [List.foldl_cons, hstep,
      ih (tot + (if b = 0 then -pv.2 else pv.2)) pv.1 _ (by omega) (by omega)
        (fun q hq => hvols q (by simp [hq]))]
    cases t with
    | nil => rfl
    | cons q r =>
      obtain ⟨y, hy⟩ : ∃ y, (q :: r).getLast? = some y :=
        Option.isSome_iff_exists.mp (List.getLast?_isSome.mpr (by simp))
      rw [List.getLast?_cons_cons, hy]
      rfl

theorem nextMidPrice_empty_side (od : OrderDepth)
    (h : od.sell_orders = [] ∨ od.buy_orders = []) :
    nextMidPrice od = .error .emptyBookSide := by
  rcases h with h | h
  · unfold nextMidPrice
    by_cases hb : totBidVol (sortDesc od.buy_orders) = 0
    · rw [if_pos hb]
    · rw [if_neg hb, if_pos (by simp [h, sortAsc, totAskVol])]
  · unfold nextMidPrice
    rw [if_pos (by simp [h, sortDesc, totBidVol])]

theorem computeMids_empty_side (l : List (String × OrderDepth)) (p : String)
    (od : OrderDepth) (hmem : (p, od) ∈ l)
    (hempty : od.sell_orders = [] ∨ od.buy_orders = []) :
    computeMids l = .error .emptyBookSide := by
  induction l with
  | nil => cases hmem
  | cons hd tl ih =>
    obtain ⟨q, od'⟩ := hd
    unfold computeMids
    rcases List.mem_cons.mp hmem with heq | htl
    · have h2 : od = od' := (Prod.ext_iff.mp heq).2
      rw [nextMidPrice_empty_side od' (h2 ▸ hempty)]
    · cases hn : nextMidPrice od' with
      | error e => cases e; rfl
      | ok mid => rw [ih htl]

theorem computeMids_mem (l : List (String × OrderDepth))
    (mids : List (String × OrderDepth × ℚ)) (h : computeMids l = .ok mids) :
    ∀ x ∈ mids, (x.1, x.2.1) ∈ l := by
  induction l generalizing mids with
  | nil =>
    rw [computeMids] at h
    obtain rfl := (Except.ok.inj h)
    simp
  | cons hd tl ih =>
    obtain ⟨q, od⟩ := hd
    rw [computeMids] at h
    cases hn : nextMidPrice od with
    | error e => rw [hn] at h; cases h
    | ok mid =>
      rw [hn] at h
      cases hc : computeMids tl with
      | error e => rw [hc] at h; cases h
      | ok tm =>
        rw [hc] at h
        obtain rfl := (Except.ok.inj h)
        intro x hx
        rcases List.mem_cons.mp hx with rfl | hx'
        · simp
        · exact List.mem_cons_of_mem _ (ih tm hc x hx')

theorem pyInt_mono (q r : ℚ) (h : q ≤ r) : pyInt q ≤ pyInt r := by
  rw [pyInt, pyInt]
  split_ifs with h1 h2 h3
  · exact Int.floor_le_floor h
  · linarith
  · calc ⌈q⌉ ≤ 0 := Int.ceil_le.mpr (by push_cast; linarith)
      _ ≤ ⌊r⌋ := Int.le_floor.mpr (by push_cast; linarith)
  · exact Int.ceil_le_ceil h

theorem accPrice_mono (p : String) (q r : ℚ) (h : q ≤ r) :
    accPrice p q ≤ accPrice p r := by
  rw [accPrice, accPrice]
  split_ifs
  · exact le_refl _
  · exact pyInt_mono q r h

/-! ### Stage lemmas for the quoting engine -/

theorem BuyStage.pos_le {cur : ℤ} {os : List Order} {s : ℤ × List Order}
    (h : BuyStage cur os s) : s.1 ≤ 20 := by
  obtain ⟨tail, rfl, _, hp⟩ := h
  have := hp tail.length
  rwa [List.take_length] at this

theorem SellStage.pos_ge {cur : ℤ} {os : List Order} {s : ℤ × List Order}
    (h : SellStage cur os s) : -20 ≤ s.1 := by
  obtain ⟨tail, rfl, _, hp⟩ := h
  have := hp tail.length
  rwa [List.take_length] at this

theorem BuyStage.comp_buy {cur : ℤ} {os : List Order} {s₁ s₂ : ℤ × List Order}
    (h1 : BuyStage cur os s₁) (h2 : BuyStage s₁.1 s₁.2 s₂) : BuyStage cur os s₂ := by
  obtain ⟨t1, rfl, hq1, hp1⟩ := h1
  obtain ⟨t2, rfl, hq2, hp2⟩ := h2
  dsimp only at hp2 ⊢
  refine ⟨t1 ++ t2, ?_, ?_, ?_⟩
  · simp [add_assoc]
  · intro o ho
    rcases List.mem_append.mp ho with h | h
    · exact hq1 o h
    · exact hq2 o h
  · intro n
    rw [List.map_take, List.map_append, List.take_append_eq_append_take,
      List.sum_append, List.length_map]
    by_cases hn : n ≤ t1.length
    · rw [Nat.sub_eq_zero_of_le hn]
      have := hp1 n
      rw [List.map_take] at this
      simpa using this
    · rw [List.take_of_length_le (by rw [List.length_map]; omega)]
      have := hp2 (n - t1.length)
      rw [List.map_take] at this
      omega

theorem SellStage.comp_sell {cur : ℤ} {os : List Order} {s₁ s₂ : ℤ × List Order}
    (h1 : SellStage cur os s₁) (h2 : SellStage s₁.1 s₁.2 s₂) : SellStage cur os s₂ := by
  obtain ⟨t1, rfl, hq1, hp1⟩ := h1
  obtain ⟨t2, rfl, hq2, hp2⟩ := h2
  dsimp only at hp2 ⊢
  refine ⟨t1 ++ t2, ?_, ?_, ?_⟩
  · simp [add_assoc]
  · intro o ho
    rcases List.mem_append.mp ho with h | h
    · exact hq1 o h
    · exact hq2 o h
  · intro n
    rw [List.map_take, List.map_append, List.take_append_eq_append_take,
      List.sum_append, List.length_map]
    by_cases hn : n ≤ t1.length
    · rw [Nat.sub_eq_zero_of_le hn]
      have := hp1 n
      rw [List.map_take] at this
      simpa using this
    · rw [List.take_of_length_le (by rw [List.length_map]; omega)]
      have := hp2 (n - t1.length)
      rw [List.map_take] at this
      omega

theorem buyWalk_stage (prod : String) (acc static : ℤ) (asks : List (ℤ × ℤ)) :
    (∀ pv ∈ asks, pv.2 ≤ 0) →
    ∀ (cur : ℤ) (os : List Order), cur ≤ 20 →
    BuyStage cur os (asks.foldl (buyStep prod acc static) (cur, os)) := by
  induction asks with
  | nil =>
    intro _ cur os hcur
    exact ⟨[], by simp, by simp, fun n => by simpa using hcur⟩
  | cons pv t ih =>
    intro hv cur os hcur
    rw [List.foldl_cons]
    by_cases hc : pv.1 < acc ∨ (static < 0 ∧ pv.1 = acc ∧ cur < 20)
    · have hv0 : 0 ≤ -pv.2 := by have := hv pv (by simp); omega
      have hbv0 : 0 ≤ min (-pv.2) (20 - cur) := le_min hv0 (by omega)
      have hble : min (-pv.2) (20 - cur) ≤ 20 - cur := min_le_right _ _
      have hstep : buyStep prod acc static (cur, os) pv =
          (cur + min (-pv.2) (20 - cur),
            os ++ [⟨prod, pv.1, min (-pv.2) (20 - cur)⟩]) := by
        rw [buyStep, if_pos hc]
      rw [hstep]
      have hone : BuyStage cur os (cur + min (-pv.2) (20 - cur),
          os ++ [⟨prod, pv.1, min (-pv.2) (20 - cur)⟩]) := by
        refine ⟨[⟨prod, pv.1, min (-pv.2) (20 - cur)⟩], by simp, by simpa using hbv0,
          fun n => ?_⟩
        cases n with
        | zero => simpa using hcur
        | succ m => simp [List.take_succ_cons]; omega
      exact hone.comp_buy (ih (fun q hq => hv q (by simp [hq])) _ _ (by omega))
    · have hstep : buyStep prod acc static (cur, os) pv = (cur, os) := by
        rw [buyStep, if_neg hc]
      rw [hstep]
      exact ih (fun q hq => hv q (by simp [hq])) cur os hcur

theorem sellWalk_stage (prod : String) (acc static : ℤ) (bids : List (ℤ × ℤ)) :
    (∀ pv ∈ bids, 0 ≤ pv.2) →
    ∀ (cur : ℤ) (os : List Order), -20 ≤ cur →
    SellStage cur os (bids.foldl (sellStep prod acc static) (cur, os)) := by
  induction bids with
  | nil =>
    intro _ cur os hcur
    exact ⟨[], by simp, by simp, fun n => by simpa using hcur⟩
  | cons pv t ih =>
    intro hv cur os hcur
    rw [List.foldl_cons]
    by_cases hc : pv.1 > acc ∨ (static > 0 ∧ pv.1 = acc ∧ cur > -20)
    · have hv0 : -pv.2 ≤ 0 := by have := hv pv (by simp); omega
      have hbv0 : max (-pv.2) (-20 - cur) ≤ 0 := max_le hv0 (by omega)
      have hble : -20 - cur ≤ max (-pv.2) (-20 - cur) := le_max_right _ _
      have hstep : sellStep prod acc static (cur, os) pv =
          (cur + max (-pv.2) (-20 - cur),
            os ++ [⟨prod, pv.1, max (-pv.2) (-20 - cur)⟩]) := by
        rw [sellStep, if_pos hc]
      rw [hstep]
      have hone : SellStage cur os (cur + max (-pv.2) (-20 - cur),
          os ++ [⟨prod, pv.1, max (-pv.2) (-20 - cur)⟩]) := by
        refine ⟨[⟨prod, pv.1, max (-pv.2) (-20 - cur)⟩], by simp, by simpa using hbv0,
          fun n => ?_⟩
        cases n with
        | zero => simpa using hcur
        | succ m => simp [List.take_succ_cons]; omega
      exact hone.comp_sell (ih (fun q hq => hv q (by simp [hq])) _ _ (by omega))
    · have hstep : sellStep prod acc static (cur, os) pv = (cur, os) := by
        rw [sellStep, if_neg hc]
      rw [hstep]
      exact ih (fun q hq => hv q (by simp [hq])) cur os hcur

theorem buyLayerIf_stage (prod : String) (price : ℤ) (s : ℤ × List Order)
    (hs : s.1 ≤ 20) (C : Prop) [Decidable C] (hC : C → s.1 < 20) :
    BuyStage s.1 s.2
      (if C then (s.1 + min 40 (20 - s.1), s.2 ++ [⟨prod, price, min 40 (20 - s.1)⟩])
       else s) := by
  by_cases h : C
  · rw [if_pos h]
    have h20 := hC h
    refine ⟨[⟨prod, price, min 40 (20 - s.1)⟩], by simp, by simp; omega, fun n => ?_⟩
    cases n with
    | zero => simpa using hs
    | succ m => simp [List.take_succ_cons]; omega
  · rw [if_neg h]
    exact ⟨[], by simp, by simp, fun n => by simpa using hs⟩

theorem sellLayerIf_stage (prod : String) (price : ℤ) (s : ℤ × List Order)
    (hs : -20 ≤ s.1) (C : Prop) [Decidable C] (hC : C → -20 < s.1) :
    SellStage s.1 s.2
      (if C then (s.1 + max (-40) (-20 - s.1), s.2 ++ [⟨prod, price, max (-40) (-20 - s.1)⟩])
       else s) := by
  by_cases h : C
  · rw [if_pos h]
    have h20 := hC h
    refine ⟨[⟨prod, price, max (-40) (-20 - s.1)⟩], by simp, by simp; omega, fun n => ?_⟩
    cases n with
    | zero => simpa using hs
    | succ m => simp [List.take_succ_cons]; omega
  · rw [if_neg h]
    exact ⟨[], by simp, by simp, fun n => by simpa using hs⟩

theorem buyLayers_stage (prod : String) (acc static ub ob : ℤ)
    (s : ℤ × List Order) (hs : s.1 ≤ 20) :
    BuyStage s.1 s.2 (buyLayers prod acc static ub ob s) := by
  rw [buyLayers]
  have h1 := buyLayerIf_stage prod (min (ub + 1) (acc - 1)) s hs
    (s.1 < 20 ∧ static < 0) (fun h => h.1)
  have h12 := h1.comp_buy (buyLayerIf_stage prod (min (ub - 1) (acc - 1))
    (if s.1 < 20 ∧ static < 0 then
      (s.1 + min 40 (20 - s.1),
        s.2 ++ [⟨prod, min (ub + 1) (acc - 1), min 40 (20 - s.1)⟩])
     else s) h1.pos_le (_ ∧ static > 15) (fun h => h.1))
  exact h12.comp_buy (buyLayerIf_stage prod ob _ h12.pos_le _ (fun h => h))

theorem sellLayers_stage (prod : String) (acc static us oa : ℤ)
    (s : ℤ × List Order) (hs : -20 ≤ s.1) :
    SellStage s.1 s.2 (sellLayers prod acc static us oa s) := by
  rw [sellLayers]
  have h1 := sellLayerIf_stage prod (max (us - 1) (acc + 1)) s hs
    (s.1 > -20 ∧ static > 0) (fun h => h.1)
  have h12 := h1.comp_sell (sellLayerIf_stage prod (max (us + 1) (acc + 1))
    (if s.1 > -20 ∧ static > 0 then
      (s.1 + max (-40) (-20 - s.1),
        s.2 ++ [⟨prod, max (us - 1) (acc + 1), max (-40) (-20 - s.1)⟩])
     else s) h1.pos_ge (_ ∧ static < -15) (fun h => h.1))
  exact h12.comp_sell (sellLayerIf_stage prod oa _ h12.pos_ge _ (fun h => h))

theorem pipeline_bound (prod : String) (acc static ub us ob oa : ℤ)
    (asks bids : List (ℤ × ℤ))
    (hs : ∀ pv ∈ asks, pv.2 ≤ 0) (hb : ∀ pv ∈ bids, 0 ≤ pv.2)
    (hlo : -20 ≤ static) (hhi : static ≤ 20) (n : ℕ) :
    -20 ≤ static + ((((sellLayers prod acc static us oa
        (bids.foldl (sellStep prod acc static)
          (static, (buyLayers prod acc static ub ob
            (asks.foldl (buyStep prod acc static) (static, []))).2))).2).take n).map
              Order.quantity).sum ∧
    static + ((((sellLayers prod acc static us oa
        (bids.foldl (sellStep prod acc static)
          (static, (buyLayers prod acc static ub ob
            (asks.foldl (buyStep prod acc static) (static, []))).2))).2).take n).map
              Order.quantity).sum ≤ 20 := by
  have hw := buyWalk_stage prod acc static asks hs static [] hhi
  have hbuy := hw.comp_buy (buyLayers_stage prod acc static ub ob _ hw.pos_le)
  obtain ⟨B, hBeq, hBq, hBpre⟩ := hbuy
  have hos : (buyLayers prod acc static ub ob
      (asks.foldl (buyStep prod acc static) (static, []))).2 = B := by
    rw [hBeq]
    simp
  have hsw := sellWalk_stage prod acc static bids hb static
    ((buyLayers prod acc static ub ob
      (asks.foldl (buyStep prod acc static) (static, []))).2) hlo
  have hsell := hsw.comp_sell (sellLayers_stage prod acc static us oa _ hsw.pos_ge)
  obtain ⟨S, hSeq, hSq, hSpre⟩ := hsell
  have hout : (sellLayers prod acc static us oa
      (bids.foldl (sellStep prod acc static)
        (static, (buyLayers prod acc static ub ob
          (asks.foldl (buyStep prod acc static) (static, []))).2))).2 = B ++ S := by
    rw [hSeq, hos]
  rw [hout, List.map_take, List.map_append, sum_take_append, List.length_map]
  have h1 : ∀ m : ℕ, static + ((List.map Order.quantity B).take m).sum ≤ 20 := by
    intro m
    have := hBpre m
    rwa [List.map_take] at this
  have h2 : ∀ m : ℕ, -20 ≤ static + ((List.map Order.quantity S).take m).sum := by
    intro m
    have := hSpre m
    rwa [List.map_take] at this
  have h3 : 0 ≤ ((List.map Order.quantity B).take n).sum := by
    refine List.sum_nonneg fun x hx => ?_
    obtain ⟨o, ho, rfl⟩ := List.mem_map.mp (List.take_subset _ _ hx)
    exact hBq o ho
  have h4 : ((List.map Order.quantity S).take (n - B.length)).sum ≤ 0 := by
    refine int_sum_nonpos _ fun x hx => ?_
    obtain ⟨o, ho, rfl⟩ := List.mem_map.mp (List.take_subset _ _ hx)
    exact hSq o ho
  have := h1 n
  have := h2 (n - B.length)
  omega

theorem runProduct_bound (static : ℤ) (prod : String) (od : OrderDepth) (mid : ℚ)
    (hs : ∀ pv ∈ od.sell_orders, pv.2 ≤ 0)
    (hb : ∀ pv ∈ od.buy_orders, 0 ≤ pv.2)
    (hlo : -20 ≤ static) (hhi : static ≤ 20) (n : ℕ) :
    -20 ≤ static + (((runProduct static prod od mid).take n).map Order.quantity).sum ∧
      static + (((runProduct static prod od mid).take n).map Order.quantity).sum ≤ 20 := by
  have hs' : ∀ pv ∈ sortAsc od.sell_orders, pv.2 ≤ 0 := fun pv hpv =>
    hs pv ((List.perm_insertionSort _ _).mem_iff.mp hpv)
  have hb' : ∀ pv ∈ sortDesc od.buy_orders, 0 ≤ pv.2 := fun pv hpv =>
    hb pv ((List.perm_insertionSort _ _).mem_iff.mp hpv)
  exact pipeline_bound prod (accPrice prod mid) static
    (values_extract (sortDesc od.buy_orders) 1 + 1)
    (values_extract (sortAsc od.sell_orders) 0 - 1)
    (min (values_extract (sortDesc od.buy_orders) 1 + 1) (accPrice prod mid - 1))
    (min (values_extract (sortAsc od.sell_orders) 0 - 1) (accPrice prod mid + 1))
    (sortAsc od.sell_orders) (sortDesc od.buy_orders) hs' hb' hlo hhi n

/-! ### Evaluation of `run` on the concrete states -/

theorem mid6 : nextMidPrice ⟨[(11, 4)], [(9, -5), (10, -3)]⟩ = .ok (163 / 16) := by
  simp [nextMidPrice, sortAsc, sortDesc, List.insertionSort, List.orderedInsert,
    totAskVol, totAskPriceVol, totBidVol, totBidPriceVol]
  norm_num

theorem acc6 : accPrice "X" (163 / 16) = 10 := by
  rw [accPrice, if_neg (by simp), pyInt, if_pos (by norm_num)]
  rw [Int.floor_eq_iff]
  norm_num

theorem run_state6_eval :
    run state6 = .ok ([("X",
      [⟨"X", 9, 5⟩, ⟨"X", 9, 15⟩, ⟨"X", 11, -4⟩, ⟨"X", 9, -16⟩])], 1, "d") := by
  simp [run, state6, computeMids, mid6, runProduct, acc6, lookupPos, sortAsc,
    sortDesc, List.insertionSort, List.orderedInsert, values_extract,
    values_extract_step, buyStep, sellStep, buyLayers, sellLayers, min_def, max_def]

theorem mid10 : nextMidPrice ⟨[(100, 1)], [(5, -30), (6, -2)]⟩ = .ok (1681 / 32) := by
  simp [nextMidPrice, sortAsc, sortDesc, List.insertionSort, List.orderedInsert,
    totAskVol, totAskPriceVol, totBidVol, totBidPriceVol]
  norm_num

theorem acc10 : accPrice "X" (1681 / 32) = 52 := by
  rw [accPrice, if_neg (by simp), pyInt, if_pos (by norm_num)]
  rw [Int.floor_eq_iff]
  norm_num

theorem run_state10_eval :
    run state10 = .ok ([("X",
      [⟨"X", 5, 20⟩, ⟨"X", 6, 0⟩, ⟨"X", 100, -1⟩, ⟨"X", 5, -19⟩])], 1, "s") := by
  simp [run, state10, computeMids, mid10, runProduct, acc10, lookupPos, sortAsc,
    sortDesc, List.insertionSort, List.orderedInsert, values_extract,
    values_extract_step, buyStep, sellStep, buyLayers, sellLayers, min_def, max_def]

theorem mid4w : nextMidPrice ⟨[(2, 3)], [(4, -2)]⟩ = .ok 3 := by
  simp [nextMidPrice, sortAsc, sortDesc, List.insertionSort, List.orderedInsert,
    totAskVol, totAskPriceVol, totBidVol, totBidPriceVol]
  norm_num

theorem mid8a : nextMidPrice ⟨[(5, 2)], [(4, -1)]⟩ = .ok (9 / 2) := by
  simp [nextMidPrice, sortAsc, sortDesc, List.insertionSort, List.orderedInsert,
    totAskVol, totAskPriceVol, totBidVol, totBidPriceVol]
  norm_num

theorem mid8b : nextMidPrice ⟨[(5, 2)], [(6, -1)]⟩ = .ok (11 / 2) := by
  simp [nextMidPrice, sortAsc, sortDesc, List.insertionSort, List.orderedInsert,
    totAskVol, totAskPriceVol, totBidVol, totBidPriceVol]
  norm_num

/-! ## The claimed properties -/

/-- Claim C1: for every tick and every product, if `run` succeeds and
emits an order list for that product, then — assuming the host-reported
tick-start position lies in `[-20, 20]`, stored ask volumes are `≤ 0`
and stored bid volumes are `≥ 0` — the tick-start position plus the
cumulative sum of the quantities of the orders emitted so far stays
within `[-20, 20]` after every single appended order, across both the
BUY pass (aggressive fills plus passive layers) and the SELL pass. -/
theorem run_position_prefix_bound (state : TradingState) (p : String)
    (orders : List Order) (result : List (String × List Order)) (c : ℤ) (t : String)
    (hrun : run state = .ok (result, c, t))
    (hord : (p, orders) ∈ result)
    (hsell : ∀ od, (p, od) ∈ state.order_depths → ∀ pv ∈ od.sell_orders, pv.2 ≤ 0)
    (hbuy : ∀ od, (p, od) ∈ state.order_depths → ∀ pv ∈ od.buy_orders, 0 ≤ pv.2)
    (hlo : -20 ≤ lookupPos state.position p) (hhi : lookupPos state.position p ≤ 20)
    (n : ℕ) :
    -20 ≤ lookupPos state.position p + ((orders.take n).map Order.quantity).sum ∧
      lookupPos state.position p + ((orders.take n).map Order.quantity).sum ≤ 20 := by
  rw [run] at hrun
  cases hcm : computeMids state.order_depths with
  | error e => rw [hcm] at hrun; cases hrun
  | ok mids =>
    rw [hcm] at hrun
    have h1 := Except.ok.inj hrun
    have hres : (mids.map fun x =>
        (x.1, runProduct (lookupPos state.position x.1) x.1 x.2.1 x.2.2)) = result :=
      congrArg Prod.fst h1
    rw [← hres] at hord
    obtain ⟨x, hx, hxeq⟩ := List.mem_map.mp hord
    have hp : x.1 = p := (Prod.ext_iff.mp hxeq).1
    have horders : orders =
        runProduct (lookupPos state.position x.1) x.1 x.2.1 x.2.2 :=
      ((Prod.ext_iff.mp hxeq).2).symm
    have hmem : (x.1, x.2.1) ∈ state.order_depths :=
      computeMids_mem state.order_depths mids hcm x hx
    subst hp
    rw [horders]
    exact runProduct_bound _ _ _ _ (hsell _ hmem) (hbuy _ hmem) hlo hhi n

/-- Witness for C1: the bound on the length-3 order-list of `state6`. -/
theorem run_position_prefix_bound_inst :
    -20 ≤ lookupPos state6.position "X" +
        ((([⟨"X", 9, 5⟩, ⟨"X", 9, 15⟩, ⟨"X", 11, -4⟩, ⟨"X", 9, -16⟩] : List Order).take 3).map
          Order.quantity).sum ∧
      lookupPos state6.position "X" +
        ((([⟨"X", 9, 5⟩, ⟨"X", 9, 15⟩, ⟨"X", 11, -4⟩, ⟨"X", 9, -16⟩] : List Order).take 3).map
          Order.quantity).sum ≤ 20 :=
  run_position_prefix_bound state6 "X"
    [⟨"X", 9, 5⟩, ⟨"X", 9, 15⟩, ⟨"X", 11, -4⟩, ⟨"X", 9, -16⟩]
    [("X", [⟨"X", 9, 5⟩, ⟨"X", 9, 15⟩, ⟨"X", 11, -4⟩, ⟨"X", 9, -16⟩])] 1 "d"
    run_state6_eval (by simp)
    (by intro od hod
        simp only [state6, List.mem_singleton, Prod.mk.injEq, true_and] at hod
        subst hod
        decide)
    (by intro od hod
        simp only [state6, List.mem_singleton, Prod.mk.injEq, true_and] at hod
        subst hod
        decide)
    (by norm_num [state6, lookupPos, List.find?])
    (by norm_num [state6, lookupPos, List.find?])
    3

set_option maxHeartbeats 1000000 in
/-- Claim C2 (code bug): `predict_next_price`, the composition
`idwt (dwt S (len S)) (len S)`, is claimed to return `S` itself (the
round-trip identity, within `1e-9` relative tolerance).  It does not:
on the impulse `sig8` of length 8, entry 3 of the output is
`≈ 0.8255` where `sig8` has `0`, a deviation larger than `1/2`.  The
ported reconstruction filters are the time-reversed decomposition
filters, while this loop structure realises perfect reconstruction
only when the reconstruction pass reuses the decomposition filters
themselves. -/
theorem predict_roundtrip_failure :
    predict_next_price sig8 8 ≠ sig8 ∧
      1 / 2 < (predict_next_price sig8 8).getD 3 0 := by
  constructor
  · intro h
    have h0 := congrArg (fun l => l.getD 3 0) h
    revert h0
    norm_num [predict_next_price, idwt, dwt, sig8, decompositionLowFilter,
      decompositionHighFilter, reconstructionLowFilter, reconstructionHighFilter,
      List.range, List.range.loop]
  · norm_num [predict_next_price, idwt, dwt, sig8, decompositionLowFilter,
      decompositionHighFilter, reconstructionLowFilter, reconstructionHighFilter,
      List.range, List.range.loop]

/-- Counterexample for C3: on the ascending ask ladder
`{10: -5, 11: -3}`, the largest per-step volume (5) is at price 10, so
the claimed semantics picks 10; `values_extract` returns 11, because
its guard compares the cumulative running total (8 at the second
level) against the last recorded step volume (5). -/
theorem values_extract_spec_mismatch :
    values_extract [(10, -5), (11, -3)] 0 = 11 ∧
      values_extract_spec [(10, -5), (11, -3)] 0 = 10 ∧ (11 : ℤ) ≠ 10 := by
  decide

/-- Claim C3 (amended): on any ladder all of whose per-step volumes
(sign-flipped when `buy = 0`) are at least 1, the cumulative total
always exceeds the previously recorded step volume, so every scanned
level wins and `values_extract` returns the price of the LAST level
(`-1` for the empty ladder) — not the first level of maximum step
volume. -/
theorem values_extract_last_level (l : List (ℤ × ℤ)) (b : ℤ)
    (h : ∀ pv ∈ l, 1 ≤ (if b = 0 then -pv.2 else pv.2)) :
    values_extract l b = ((l.getLast?.map fun pv => pv.1).getD (-1)) :=
  values_extract_loop b l 0 (-1) (-1) le_rfl (by omega) h

/-- Witness for C3. -/
theorem values_extract_last_level_inst :
    values_extract [(10, -5), (11, -3)] 0 =
      ((([(10, -5), (11, -3)] : List (ℤ × ℤ)).getLast?.map fun pv => pv.1).getD (-1)) :=
  values_extract_last_level [(10, -5), (11, -3)] 0 (by decide)

/-- Counterexample for C4: on the book `odNeg` (ask `-3` with stored
volume `-1`, bid `0` with volume `1`) the weighted mid is `-3/2`; the
fair value `run` uses is `int(-3/2) = -1` (truncation toward zero),
while the claimed `floor` is `-2`. -/
theorem fair_value_floor_mismatch :
    nextMidPrice odNeg = .ok (-(3 : ℚ) / 2) ∧
      (-(3 : ℚ) / 2) = (weightedAskSpec odNeg + weightedBidSpec odNeg) / 2 ∧
      accPrice "X" (-(3 : ℚ) / 2) = -1 ∧
      ⌊(-(3 : ℚ) / 2)⌋ = -2 := by
  refine ⟨?_, ?_, ?_, ?_⟩
  · simp [nextMidPrice, odNeg, sortAsc, sortDesc, List.insertionSort,
      List.orderedInsert, totAskVol, totAskPriceVol, totBidVol, totBidPriceVol]
  · simp [weightedAskSpec, weightedBidSpec, odNeg]
  · rw [accPrice, if_neg (by simp), pyInt, if_neg (by norm_num)]
    rw [Int.ceil_eq_iff]
    norm_num
  · rw [Int.floor_eq_iff]
    norm_num

/-- Claim C4 (amended): for a book whose stored ask volumes are `≤ 0`,
the weighted mid computed by `run` equals
`(weighted_ask + weighted_bid) / 2` in the claim's formulation, and for
a product other than `"AMETHYSTS"` the fair value is the truncation
toward zero of that mid — which agrees with `floor` whenever the mid
is nonnegative; for `"AMETHYSTS"` the fair value is the constant
`10000` regardless of the book. -/
theorem fair_value_truncation (p : String) (od : OrderDepth) (mid : ℚ)
    (hs : ∀ pv ∈ od.sell_orders, pv.2 ≤ 0)
    (h : nextMidPrice od = .ok mid) :
    mid = (weightedAskSpec od + weightedBidSpec od) / 2 ∧
    (p ≠ "AMETHYSTS" → accPrice p mid = pyInt mid) ∧
    (p ≠ "AMETHYSTS" → 0 ≤ mid → accPrice p mid = ⌊mid⌋) ∧
    accPrice "AMETHYSTS" mid = 10000 := by
  have hpa : List.Perm (sortAsc od.sell_orders) od.sell_orders :=
    List.perm_insertionSort _ _
  have hpb : List.Perm (sortDesc od.buy_orders) od.buy_orders :=
    List.perm_insertionSort _ _
  have eAPV : (totAskPriceVol (sortAsc od.sell_orders) : ℚ) =
      (od.sell_orders.map fun pv => (pv.1 : ℚ) * |(pv.2 : ℚ)|).sum := by
    rw [totAskPriceVol, List.Perm.sum_eq (hpa.map _), Int.cast_list_sum, List.map_map]
    refine congrArg List.sum (List.map_congr_left fun pv hpv => ?_)
    have h2 : ((pv.2 : ℤ) : ℚ) ≤ 0 := by exact_mod_cast hs pv hpv
    simp only [Function.comp_apply]
    push_cast
    rw [abs_of_nonpos h2]
  have eAV : (totAskVol (sortAsc od.sell_orders) : ℚ) =
      (od.sell_orders.map fun pv => |(pv.2 : ℚ)|).sum := by
    rw [totAskVol, List.Perm.sum_eq (hpa.map _), Int.cast_list_sum, List.map_map]
    refine congrArg List.sum (List.map_congr_left fun pv hpv => ?_)
    have h2 : ((pv.2 : ℤ) : ℚ) ≤ 0 := by exact_mod_cast hs pv hpv
    simp only [Function.comp_apply]
    push_cast
    rw [abs_of_nonpos h2]
  have eBPV : (totBidPriceVol (sortDesc od.buy_orders) : ℚ) =
      (od.buy_orders.map fun pv => (pv.1 : ℚ) * (pv.2 : ℚ)).sum := by
    rw [totBidPriceVol, List.Perm.sum_eq (hpb.map _), Int.cast_list_sum, List.map_map]
    refine congrArg List.sum (List.map_congr_left fun pv _ => ?_)
    simp only [Function.comp_apply]
    push_cast
    ring
  have eBV : (totBidVol (sortDesc od.buy_orders) : ℚ) =
      (od.buy_orders.map fun pv => (pv.2 : ℚ)).sum := by
    rw [totBidVol, List.Perm.sum_eq (hpb.map _), Int.cast_list_sum, List.map_map]
    rfl
  refine ⟨?_, ?_, ?_, ?_⟩
  · rw [nextMidPrice] at h
    split_ifs at h with h1 h2
    have := Except.ok.inj h
    rw [← this, weightedAskSpec, weightedBidSpec, ← eAPV, ← eAV, ← eBPV, ← eBV]
  · intro hp
    rw [accPrice, if_neg hp]
  · intro hp hm
    rw [accPrice, if_neg hp, pyInt, if_pos hm]
  · rw [accPrice, if_pos rfl]

/-- Witness for C4: the book with asks `{4: -2}`, bids `{2: 3}` has
weighted mid `3`. -/
theorem fair_value_truncation_inst :
    (3 : ℚ) = (weightedAskSpec ⟨[(2, 3)], [(4, -2)]⟩ +
      weightedBidSpec ⟨[(2, 3)], [(4, -2)]⟩) / 2 :=
  (fair_value_truncation "Y" ⟨[(2, 3)], [(4, -2)]⟩ 3 (by decide) mid4w).1

/-- Claim C5: whenever some product's ask ladder or bid ladder is
empty, `run` fails for that tick with the `EmptyBookSide` error (the
unguarded `ZeroDivisionError` of the source) — no order list is
produced and no fallback or sentinel fair value is substituted. -/
theorem run_empty_side_error (state : TradingState) (p : String) (od : OrderDepth)
    (hmem : (p, od) ∈ state.order_depths)
    (hempty : od.sell_orders = [] ∨ od.buy_orders = []) :
    run state = .error RunError.emptyBookSide := by
  unfold run
  rw [computeMids_empty_side state.order_depths p od hmem hempty]

/-- Witness for C5. -/
theorem run_empty_side_error_inst :
    run ⟨[("E", ⟨[(1, 1)], []⟩)], [], "e"⟩ = .error RunError.emptyBookSide :=
  run_empty_side_error ⟨[("E", ⟨[(1, 1)], []⟩)], [], "e"⟩ "E" ⟨[(1, 1)], []⟩
    (by simp) (Or.inl rfl)

/-- Claim C6: on `state6` (asks `{9: -5, 10: -3}`, bids `{11: 4}`,
tick-start position 0; derived fair value 10), the BUY pass emits the
order buying 5 units at price 9 first, and no buy order at price 10 is
emitted anywhere in the product's order list. -/
theorem aggressive_fill_example :
    (ordersFor state6 "X").head? = some ⟨"X", 9, 5⟩ ∧
      (ordersFor state6 "X").filter
        (fun o => o.price == 10 && decide (0 < o.quantity)) = [] := by
  rw [ordersFor, run_state6_eval]
  simp [List.find?, List.filter]

/-- Claim C7: with fair value 10, tick-start position `-5` and
`best_bid = 8` (so `undercut_buy = 9`), the "position negative" passive
buy layer fires ahead of the catch-all layer: for any running position
`cur ∈ [-20, 20)` and any `our_bid`, the layer stage emits exactly one
order, at price `min (undercut_buy + 1) (V - 1)` with quantity
`min 40 (20 - cur)` — the running position reaches the ceiling, so the
catch-all layer stays silent afterwards. -/
theorem passive_layer_negative_priority (prod : String) (our_bid : ℤ)
    (os : List Order) (cur : ℤ) (h1 : -20 ≤ cur) (h2 : cur < 20) :
    buyLayers prod 10 (-5) 9 our_bid (cur, os) =
      (20, os ++ [⟨prod, min (9 + 1) (10 - 1), min 40 (20 - cur)⟩]) := by
  have hmin : min 40 (20 - cur) = 20 - cur := by omega
  simp [buyLayers, h2, hmin]

/-- Witness for C7. -/
theorem passive_layer_negative_priority_inst :
    buyLayers "P" 10 (-5) 9 7 (0, []) =
      (20, [] ++ [⟨"P", min (9 + 1) (10 - 1), min 40 (20 - 0)⟩]) :=
  passive_layer_negative_priority "P" 7 [] 0 (by norm_num) (by norm_num)

/-- Claim C8: for a fixed bid ladder and an ask ladder with positive
sellable quantity (stored volume `< 0`) at every level, raising any
single ask price never decreases the fair value `run` computes (for
`"AMETHYSTS"` it is constant, otherwise the weighted mid rises and
truncation toward zero is monotone). -/
theorem fair_value_ask_monotone (p : String) (bids pre post : List (ℤ × ℤ))
    (pj pj' vj : ℤ) (hmono : pj ≤ pj')
    (hvols : ∀ pv ∈ pre ++ (pj, vj) :: post, pv.2 < 0)
    (mid mid' : ℚ)
    (h1 : nextMidPrice ⟨bids, pre ++ (pj, vj) :: post⟩ = .ok mid)
    (h2 : nextMidPrice ⟨bids, pre ++ (pj', vj) :: post⟩ = .ok mid') :
    accPrice p mid ≤ accPrice p mid' := by
  refine accPrice_mono p mid mid' ?_
  have hq1 : List.Perm (sortAsc (pre ++ (pj, vj) :: post)) (pre ++ (pj, vj) :: post) :=
    List.perm_insertionSort _ _
  have hq2 : List.Perm (sortAsc (pre ++ (pj', vj) :: post)) (pre ++ (pj', vj) :: post) :=
    List.perm_insertionSort _ _
  have hvj : vj < 0 := hvols (pj, vj) (by simp)
  have hVeq : totAskVol (sortAsc (pre ++ (pj', vj) :: post)) =
      totAskVol (sortAsc (pre ++ (pj, vj) :: post)) := by
    rw [totAskVol, totAskVol, List.Perm.sum_eq (hq1.map _),
      List.Perm.sum_eq (hq2.map _)]
    simp
  have hD : 0 < totAskVol (sortAsc (pre ++ (pj, vj) :: post)) := by
    rw [totAskVol, List.Perm.sum_eq (hq1.map _)]
    refine List.sum_pos _ (fun x hx => ?_) (by simp)
    obtain ⟨pv, hpv, rfl⟩ := List.mem_map.mp hx
    have := hvols pv hpv
    omega
  have hPV : totAskPriceVol (sortAsc (pre ++ (pj, vj) :: post)) ≤
      totAskPriceVol (sortAsc (pre ++ (pj', vj) :: post)) := by
    rw [totAskPriceVol, totAskPriceVol, List.Perm.sum_eq (hq1.map _),
      List.Perm.sum_eq (hq2.map _)]
    simp only [List.map_append, List.map_cons, List.sum_append, List.sum_cons]
    have hstep : pj * -vj ≤ pj' * -vj :=
      mul_le_mul_of_nonneg_right hmono (by omega)
    linarith
  have key : (totAskPriceVol (sortAsc (pre ++ (pj, vj) :: post)) : ℚ) /
        (totAskVol (sortAsc (pre ++ (pj, vj) :: post)) : ℚ) ≤
      (totAskPriceVol (sortAsc (pre ++ (pj', vj) :: post)) : ℚ) /
        (totAskVol (sortAsc (pre ++ (pj', vj) :: post)) : ℚ) := by
    rw [hVeq]
    have hc : (0 : ℚ) < (totAskVol (sortAsc (pre ++ (pj, vj) :: post)) : ℚ) := by
      exact_mod_cast hD
    rw [div_le_div_iff_of_pos_right hc]
    exact_mod_cast hPV
  rw [nextMidPrice] at h1 h2
  dsimp only at h1 h2
  split_ifs at h1
  split_ifs at h2
  rw [← Except.ok.inj h1, ← Except.ok.inj h2]
  have := key
  linarith

/-- Witness for C8: raising the single ask from 4 to 6 moves the fair
value from 4 to 5. -/
theorem fair_value_ask_monotone_inst :
    accPrice "X" (9 / 2) ≤ accPrice "X" (11 / 2) :=
  fair_value_ask_monotone "X" [(5, 2)] [] [] 4 6 (-1) (by norm_num) (by decide)
    (9 / 2) (11 / 2) mid8a mid8b

/-- Counterexample for C9: on a state whose only product has both book
sides empty, `run` raises instead of returning, so it does not return
the carry string or a conversions value for every input state. -/
theorem run_not_total_on_empty_book :
    run ⟨[("X", ⟨[], []⟩)], [], "t"⟩ = .error RunError.emptyBookSide := rfl

/-- Claim C9 (amended): whenever `run` returns at all — that is, on
every state it does not abort with the division-by-zero error — the
returned carry string is byte-identical to the input `traderData` and
the returned conversions value is the constant 1. -/
theorem run_carry_state_passthrough (state : TradingState)
    (result : List (String × List Order)) (c : ℤ) (t : String)
    (h : run state = .ok (result, c, t)) :
    t = state.traderData ∧ c = 1 := by
  unfold run at h
  cases hcm : computeMids state.order_depths with
  | error e => rw [hcm] at h; cases h
  | ok mids =>
    rw [hcm] at h
    have := Except.ok.inj h
    exact ⟨(congrArg (fun x => x.2.2) this).symm, (congrArg (fun x => x.2.1) this).symm⟩

/-- Witness for C9. -/
theorem run_carry_state_passthrough_inst :
    "d" = state6.traderData ∧ (1 : ℤ) = 1 :=
  run_carry_state_passthrough state6
    [("X", [⟨"X", 9, 5⟩, ⟨"X", 9, 15⟩, ⟨"X", 11, -4⟩, ⟨"X", 9, -16⟩])] 1 "d"
    run_state6_eval

/-- Claim C10: once the running position sits at the `+20` ceiling, a
further ask strictly below fair value still makes the BUY walk append
an order with quantity 0 (and symmetrically the SELL walk at the `-20`
floor appends quantity-0 sells for bids above fair value), so `run`'s
output may contain zero-quantity orders — as it does on `state10`. -/
theorem zero_quantity_orders :
    (∀ (prod : String) (acc static : ℤ) (os : List Order) (price vol : ℤ),
      price < acc → vol ≤ 0 →
      buyStep prod acc static (20, os) (price, vol) = (20, os ++ [⟨prod, price, 0⟩])) ∧
    (∀ (prod : String) (acc static : ℤ) (os : List Order) (price vol : ℤ),
      acc < price → 0 ≤ vol →
      sellStep prod acc static (-20, os) (price, vol) = (-20, os ++ [⟨prod, price, 0⟩])) ∧
    (0 : ℤ) ∈ (ordersFor state10 "X").map Order.quantity := by
  refine ⟨?_, ?_, ?_⟩
  · intro prod acc static os price vol h1 h2
    have hm : min (-vol) (0 : ℤ) = 0 := by omega
    simp [buyStep, h1, hm]
  · intro prod acc static os price vol h1 h2
    have hm : max (-vol) (0 : ℤ) = 0 := by omega
    simp [sellStep, h1, hm]
  · rw [ordersFor, run_state10_eval]
    simp [List.find?]

/-- Witness for C10. -/
theorem zero_quantity_orders_inst :
    buyStep "P" 10 0 (20, []) (9, -5) = (20, [] ++ [⟨"P", 9, 0⟩]) ∧
      sellStep "P" 10 0 (-20, []) (11, 5) = (-20, [] ++ [⟨"P", 11, 0⟩]) :=
  ⟨zero_quantity_orders.1 "P" 10 0 [] 9 (-5) (by norm_num) (by norm_num),
    zero_quantity_orders.2.1 "P" 10 0 [] 11 5 (by norm_num) (by norm_num)⟩

end TraderPy
